import Mathlib

/-!
Verification of the `airline_seats` game
(`src/open_spiel/games/airline_seats.cc` / `.h`) against its
natural-language specification.

The C++ code is shallowly embedded: `double` arithmetic is idealised as
exact rational arithmetic (`ℚ`); all values that the game ever stores in
doubles are either integers or products/sums of integers and the sampled
rationals, so the idealisation is exact except where noted.  The C math
library's `pow` is kept abstract (a parameter `pw : ℚ → ℚ → ℚ`), since
its exact values are irrelevant to the structural claims; `my_pow` is
translated from the source on top of it.  `std::mt19937` is modelled as
an abstract stream `u : ℕ → ℚ` of uniform draws together with a cursor
`k : ℕ`; `RAND()` reads `u k` and advances the cursor.
-/

namespace AirlineSeats

/-! ### Constants, translated from `airline_seats.cc` lines 33-45 -/

def kDefaultRandom : ℚ := 20
def kDefaultPower : ℚ := -50
def kC0 : ℚ := 36
def kMaxRounds : Int := 10
/-- `constexpr float kC11 = -0.24` (idealised as an exact rational). -/
def kC11 : ℚ := -24/100
/-- `constexpr float kC12 = -0.293` (idealised as an exact rational). -/
def kC12 : ℚ := -293/1000
def kInitialRound : Int := 0
def kInitialPurchasePrice : ℚ := 50
def kLatePurchasePrice : ℚ := 80
def kInitialPlayer : Int := 0

/-- Modelled from the spec: the "chance-marker" value for `current_actor`
(the host framework's `kChancePlayerId`, which is outside `src/`). -/
def chancePlayerId : Int := -1

/-- Modelled from the spec: the "terminal-marker" value for `current_actor`
(the host framework's `kTerminalPlayerId`, which is outside `src/`). -/
def terminalPlayerId : Int := -4

/-- `enum class GamePhase` from `airline_seats.h`. -/
inductive GamePhase where
  | InitialConditions
  | SeatBuying
  | PriceSetting
  | DemandSimulation
deriving DecidableEq, Repr

open GamePhase

/-- The state variables of `AirlineSeatsState` (`airline_seats.h` lines 111-118).
`boughtSeats_`, `sold_`, `prices_` are `std::vector`s of length `num_players_`;
`c1_` is a `double`; `round_` and `currentPlayer_` are C++ `int`s. -/
structure AState where
  round : Int
  boughtSeats : List Int
  sold : List (List Int)
  prices : List (List Int)
  c1 : ℚ
  currentPlayer : Int
  phase : GamePhase
deriving DecidableEq, Repr

/-- The constructor `AirlineSeatsState::AirlineSeatsState` (lines 75-82):
round 0, zero-filled vectors of length `N`, chance player, phase
`InitialConditions`.  `c1_` is left uninitialised by the C++ constructor;
the model picks `0` (its value is unobservable before the first draw
except through `ToString`, see the serialization claims). -/
def initialState (N : ℕ) : AState :=
  { round := kInitialRound
    boughtSeats := List.replicate N 0
    sold := List.replicate N []
    prices := List.replicate N []
    c1 := 0
    currentPlayer := chancePlayerId
    phase := InitialConditions }

/-! ### Small list helpers

`std::vector::operator[]` with an out-of-range index is undefined
behaviour in C++; the total models below leave the vector unchanged
(for writes) or return a default (for reads) in that case, and every
claim settled on an in-range index is unaffected by that choice. -/

/-- Write `f` at position `n` of a list; no-op when `n` is out of range. -/
def updAtNat (f : α → α) : ℕ → List α → List α
  | _, [] => []
  | 0, a :: l => f a :: l
  | n+1, a :: l => a :: updAtNat f n l

/-- Write `f` at a C++ `int` index; models `v[i] = ...` (out-of-range and
negative indices, which are UB in C++, leave the list unchanged). -/
def updAt (f : α → α) (i : Int) (l : List α) : List α :=
  if 0 ≤ i then updAtNat f i.toNat l else l

/-- Append `vals (k + position)` to every inner list; models the loop
`for i < N: v[i].push_back(vals[i])`. -/
def appendEach (vals : ℕ → Int) : ℕ → List (List Int) → List (List Int)
  | _, [] => []
  | k, l :: ls => (l ++ [vals k]) :: appendEach vals (k+1) ls

/-- `v.back()` with the UB-on-empty case defaulted to `0`. -/
def lastD (l : List Int) : Int := (l.getLast?).getD 0

/-- C's `round` (nearest integer, halfway cases away from zero) followed by
the exact `(int)` cast of the integral result. -/
def roundHalfAway (q : ℚ) : Int :=
  if q < 0 then -(Int.floor (-q + 1/2)) else Int.floor (q + 1/2)

/-! ### Action codec and phase machine -/

/-- `AirlineSeatsState::IsTerminal` (lines 84-86). -/
def isTerminal (s : AState) : Bool := decide (s.round ≥ kMaxRounds)

/-- `AirlineSeatsState::LegalActions` (lines 110-121). -/
def legalActions (s : AState) : List Int :=
  if s.phase = InitialConditions ∨ s.phase = DemandSimulation then [0]
  else if s.phase = SeatBuying then [0, 1, 2, 3, 4]
  else [5, 6, 7, 8, 9]

/-- `AirlineSeatsState::ActionInActions` (lines 144-147): `std::find` over
`LegalActions()`. -/
def actionInActions (s : AState) (a : Int) : Bool := (legalActions s).contains a

/-- `DoApplyActionInitialConditions` (lines 149-157): one RNG draw `u`,
`c1_ = RAND() * (kC12 - kC11) + kC11`, first player, phase `SeatBuying`. -/
def stepInitialConditions (u : ℚ) (s : AState) : AState :=
  { s with c1 := u * (kC12 - kC11) + kC11
           currentPlayer := kInitialPlayer
           phase := SeatBuying }

/-- `DoApplyActionSeatBuying` (lines 169-179). -/
def stepSeatBuying (N : ℕ) (move : Int) (s : AState) : AState :=
  let bought := updAt (fun _ => move * 5) s.currentPlayer s.boughtSeats
  let cp := s.currentPlayer + 1
  if cp ≥ (N : Int) then
    { s with boughtSeats := bought, currentPlayer := kInitialPlayer, phase := PriceSetting }
  else
    { s with boughtSeats := bought, currentPlayer := cp }

/-- `DoApplyActionPriceSetting` (lines 181-191). -/
def stepPriceSetting (N : ℕ) (move : Int) (s : AState) : AState :=
  let price := (move - 5) * 5 + 50
  let prices := updAt (fun l => l ++ [price]) s.currentPlayer s.prices
  let cp := s.currentPlayer + 1
  if cp ≥ (N : Int) then
    { s with prices := prices, phase := DemandSimulation, currentPlayer := chancePlayerId }
  else
    { s with prices := prices, currentPlayer := cp }

/-- `my_pow` (lines 193-196), over the abstract C `pow`. -/
def my_pow (pw : ℚ → ℚ → ℚ) (a b : ℚ) : ℚ :=
  if b < 0 then 1 / pw a |b| else pw a b

/-- The `powers` loop of `DoApplyActionDemandSimulation` (lines 205-209):
`pow(prices_[i].back(), kDefaultPower)`. -/
def dsPowers (pw : ℚ → ℚ → ℚ) (s : AState) (i : ℕ) : ℚ :=
  pw ((lastD (s.prices.getD i [])) : ℚ) kDefaultPower

/-- `powerSum` (line 215): `std::accumulate` over the powers. -/
def dsPowerSum (pw : ℚ → ℚ → ℚ) (N : ℕ) (s : AState) : ℚ :=
  ((List.range N).map (dsPowers pw s)).sum

/-- `totalDemand` (lines 216-217): `kC0 + my_pow(powerSum, 1.0/kDefaultPower) * c1_`. -/
def dsTotalDemand (pw : ℚ → ℚ → ℚ) (N : ℕ) (s : AState) : ℚ :=
  kC0 + my_pow pw (dsPowerSum pw N s) (1 / kDefaultPower) * s.c1

/-- The `randoms` loop (lines 211-214): `((RAND() - 0.5) * kDefaultRandom) / 100.0`,
one draw per player in player-index order starting at cursor `k`. -/
def dsRandom (u : ℕ → ℚ) (k : ℕ) (i : ℕ) : ℚ :=
  ((u (k + i) - 1/2) * kDefaultRandom) / 100

/-- `seatsSold` for player `i` (lines 219-232): `(int) round(totalDemand *
((1 + randoms[i]) * (powers[i] / powerSum)))`. -/
def dsSoldVal (pw : ℚ → ℚ → ℚ) (N : ℕ) (u : ℕ → ℚ) (k : ℕ) (s : AState)
    (i : ℕ) : Int :=
  roundHalfAway (dsTotalDemand pw N s *
    ((1 + dsRandom u k i) * (dsPowers pw s i / dsPowerSum pw N s)))

/-- `DoApplyActionDemandSimulation` (lines 198-244).  The `powers` loop
draws nothing; the `randoms` loop draws one uniform per player in
player-index order, so player `i`'s draw is `u (k + i)`.  After appending
the sold quantities the phase returns to `PriceSetting`, the round is
incremented and the actor reset, with the terminal marker installed when
the round limit is reached. -/
def stepDemandSimulation (pw : ℚ → ℚ → ℚ) (N : ℕ) (u : ℕ → ℚ) (k : ℕ)
    (s : AState) : AState :=
  { s with sold := appendEach (dsSoldVal pw N u k s) 0 s.sold
           phase := PriceSetting
           round := s.round + 1
           currentPlayer :=
             if s.round + 1 ≥ kMaxRounds then terminalPlayerId else kInitialPlayer }

/-- `DoApplyAction` (lines 123-142): validity check first (`SpielFatalError`
on failure, modelled as `none`), then dispatch on the phase.  The second
component tracks the RNG cursor (`InitialConditions` consumes one draw,
`DemandSimulation` consumes `N`). -/
def doApplyAction (pw : ℚ → ℚ → ℚ) (N : ℕ) (u : ℕ → ℚ) (k : ℕ)
    (s : AState) (a : Int) : Option (AState × ℕ) :=
  if actionInActions s a = false then none
  else some (match s.phase with
    | InitialConditions => (stepInitialConditions (u k) s, k + 1)
    | SeatBuying => (stepSeatBuying N a s, k)
    | PriceSetting => (stepPriceSetting N a s, k)
    | DemandSimulation => (stepDemandSimulation pw N u k s, k + N))

/-- A driver applying a list of actions from a state, refusing to act on a
terminal state (the host framework's driver contract, spec section 5/6). -/
def runActions (pw : ℚ → ℚ → ℚ) (N : ℕ) (u : ℕ → ℚ) :
    ℕ → AState → List Int → Option (AState × ℕ)
  | k, s, [] => some (s, k)
  | k, s, a :: rest =>
    if isTerminal s then none
    else match doApplyAction pw N u k s a with
      | none => none
      | some (s', k') => runActions pw N u k' s' rest

/-- States reachable by valid action sequences: the driver only submits
actions at non-terminal states and `DoApplyAction` accepts them. -/
inductive Reachable (pw : ℚ → ℚ → ℚ) (N : ℕ) (u : ℕ → ℚ) : AState → ℕ → Prop where
  | init : Reachable pw N u (initialState N) 0
  | step {s : AState} {k : ℕ} {a : Int} {s' : AState} {k' : ℕ} :
      Reachable pw N u s k → isTerminal s = false →
      doApplyAction pw N u k s a = some (s', k') → Reachable pw N u s' k'

/-! ### Scoring engine -/

/-- One pass of the inner loop body of `AirlineSeatsState::Returns`
(lines 258-268), acting on the `(pnl, seatsLeft)` accumulator for round
data `(sold, price)`.  All the values the loop puts into doubles are
integers, so `ℚ` models the `double` arithmetic exactly. -/
def returnsLoopBody (acc : ℚ × Int) (xp : Int × Int) : ℚ × Int :=
  if acc.2 > 0 then
    (if acc.2 - xp.1 < 0 then
       acc.1 + (xp.1 : ℚ) * (xp.2 : ℚ) - ((-(acc.2 - xp.1) : Int) : ℚ) * kLatePurchasePrice
     else acc.1 + (xp.1 : ℚ) * (xp.2 : ℚ),
     acc.2 - xp.1)
  else
    (acc.1 + (xp.1 : ℚ) * (xp.2 : ℚ) - (xp.1 : ℚ) * kLatePurchasePrice, acc.2)

/-- The per-player body of `AirlineSeatsState::Returns` (lines 255-269):
start from `boughtSeats_[i] * -kInitialPurchasePrice` and
`seatsLeft = boughtSeats_[i]`, then fold the loop body over rounds
`0 .. round_-1`, reading `sold_[i][round]` and `prices_[i][round]`. -/
def playerPnl (s : AState) (i : ℕ) : ℚ :=
  let bought := s.boughtSeats.getD i 0
  let data : ℕ → Int × Int :=
    fun r => ((s.sold.getD i []).getD r 0, (s.prices.getD i []).getD r 0)
  (((List.range s.round.toNat).map data).foldl returnsLoopBody
    ((bought : ℚ) * (-kInitialPurchasePrice), bought)).1

/-- `AirlineSeatsState::Returns` (lines 252-274): all zeros unless
terminal, otherwise the per-player accumulation. -/
def returnsModel (N : ℕ) (s : AState) : List ℚ :=
  if isTerminal s then (List.range N).map (playerPnl s) else List.replicate N 0

/-- The accumulation exactly as claim C2 words it, written as a structural
recursion over the per-round `(sold, price)` data: pnl starts at
`-bought * 50`; each round adds `sold * price`; while `seats_left` is
positive it is reduced by `sold` and, if it goes negative, `(-seats_left) * 80`
is subtracted; once `seats_left ≤ 0` the entire round's `sold` is
penalised at `80` per seat. -/
def claimAccum (pnl : ℚ) (seatsLeft : Int) : List (Int × Int) → ℚ
  | [] => pnl
  | (x, p) :: rest =>
    let pnl := pnl + (x : ℚ) * (p : ℚ)
    if seatsLeft > 0 then
      let sl := seatsLeft - x
      claimAccum (if sl < 0 then pnl - ((-sl : Int) : ℚ) * 80 else pnl) sl rest
    else
      claimAccum (pnl - (x : ℚ) * 80) seatsLeft rest

/-- Claim C2's description of `Returns()`: the accumulation per player over
the completed rounds when terminal, all zeros otherwise. -/
def returnsClaim (N : ℕ) (s : AState) : List ℚ :=
  if isTerminal s then
    (List.range N).map (fun i =>
      let bought := s.boughtSeats.getD i 0
      claimAccum (-(bought : ℚ) * 50) bought
        ((List.range s.round.toNat).map
          (fun r => ((s.sold.getD i []).getD r 0, (s.prices.getD i []).getD r 0))))
  else List.replicate N 0

/-! ### Per-round incremental rewards

`AirlineSeatsState::Rewards` is declared in `airline_seats.h` (line 72)
but its implementation in `airline_seats.cc` (lines 276-303) is commented
out, so the repository contains no executable per-round reward code.
The definitions below are modelled from the spec (section 4.4): the same
profit accumulation as the scoring engine, restricted to completed
rounds and split into per-round increments. -/

/-- Modelled from the spec: the `seats_left` bookkeeping value after a
prefix of rounds — reduced by each round's sold quantity while positive,
frozen once it is `≤ 0`. -/
def seatsLeftAfter (bought : Int) (soldPrefix : List Int) : Int :=
  soldPrefix.foldl (fun sl x => if sl > 0 then sl - x else sl) bought

/-- Modelled from the spec: one completed round's profit increment given
the `seats_left` value at the start of the round: revenue `sold * price`,
minus the late-purchase penalty (`80` per seat sold beyond inventory,
the whole round's quantity once inventory is exhausted). -/
def roundReward (sl : Int) (x p : Int) : ℚ :=
  (x : ℚ) * (p : ℚ) -
    (if sl > 0 then (if sl - x < 0 then (-(sl - x) : ℚ) * 80 else 0)
     else (x : ℚ) * 80)

/-- Modelled from the spec: the incremental reward of completed round `r`
for player `i` (`Rewards()` restricted to one round). -/
def rewardsRound (s : AState) (i : ℕ) (r : ℕ) : ℚ :=
  let bought := s.boughtSeats.getD i 0
  let soldAt : ℕ → Int := fun j => (s.sold.getD i []).getD j 0
  roundReward (seatsLeftAfter bought ((List.range r).map soldAt))
    (soldAt r) ((s.prices.getD i []).getD r 0)

/-! ### Information state tensor -/

/-- Write `x` at a C++ `int` index of the value vector; indices the code
produces here are in range for the states the claims touch (an
out-of-range write, UB in C++, is modelled as a no-op). -/
def setAtI (i : Int) (x : Int) (v : List Int) : List Int :=
  updAt (fun _ => x) i v

/-- `AirlineSeatsState::InformationStateTensor` (lines 394-417), translated
write for write: zero-fill, one-hot round at `offset + round_`, one-hot
actor at `offset + currentPlayer_`, the requesting player's bought seats,
then the sold and prices loops.  Note the faithful translation of the
loops: `offset` is *not* advanced inside them, so every `sold_[i][j]`
(resp. `prices_[i][j]`) is written to the same single slot, in `(j, i)`
order. -/
def informationStateTensor (N : ℕ) (s : AState) (player : ℕ) : List Int :=
  let size := 10 + N + 1 + 10 * N + 10 * N
  let v0 := List.replicate size 0
  let v1 := setAtI (0 + s.round) 1 v0
  let v2 := setAtI (10 + s.currentPlayer) 1 v1
  let v3 := setAtI (10 + (N : Int)) (s.boughtSeats.getD player 0) v2
  let soldWrites := (List.range s.round.toNat).flatMap
    (fun j => (List.range N).map (fun i => (j, i)))
  let v4 := soldWrites.foldl
    (fun v ji => setAtI (10 + (N : Int) + 1) ((s.sold.getD ji.2 []).getD ji.1 0) v) v3
  let v5 := soldWrites.foldl
    (fun v ji =>
      setAtI (10 + (N : Int) + 1 + 10 * (N : Int)) ((s.prices.getD ji.2 []).getD ji.1 0) v) v4
  v5

/-- The encoding as the spec words it (claim C9): one-hot round slot,
one-hot actor slot, the requesting player's bought seats, then *each*
sold history entry and each price history entry in its own distinct slot
in `(round, player)` order, zero-filled beyond the current round. -/
def informationStateTensorSpec (N : ℕ) (s : AState) (player : ℕ) : List Int :=
  let size := 10 + N + 1 + 10 * N + 10 * N
  let v0 := List.replicate size 0
  let v1 := setAtI (0 + s.round) 1 v0
  let v2 := setAtI (10 + s.currentPlayer) 1 v1
  let v3 := setAtI (10 + (N : Int)) (s.boughtSeats.getD player 0) v2
  let writes := (List.range s.round.toNat).flatMap
    (fun j => (List.range N).map (fun i => (j, i)))
  let v4 := writes.foldl
    (fun v ji =>
      setAtI (10 + (N : Int) + 1 + (ji.1 : Int) * N + ji.2)
        ((s.sold.getD ji.2 []).getD ji.1 0) v) v3
  let v5 := writes.foldl
    (fun v ji =>
      setAtI (10 + (N : Int) + 1 + 10 * (N : Int) + (ji.1 : Int) * N + ji.2)
        ((s.prices.getD ji.2 []).getD ji.1 0) v) v4
  v5

/-! ### State serializer

`ToString` / `Serialize` (lines 313-360, 419-428) render the state into a
pipe-delimited record; `DeserializeState` (lines 508-558) parses it back.
Strings are modelled as `List Char`.  `absl::StrFormat("%d", ·)` is the
usual decimal rendering; `"%f"` renders a double with exactly six digits
after the decimal point (the value rounded to six decimal places);
`std::stoi` / `std::stod` parse an optional sign followed by digits
(resp. digits, a point and fraction digits).  The mt19937 snapshot
produced by `GetRNGState` is space-separated decimal numbers and in
particular never contains `'|'`; it is modelled as an opaque `List Char`
restored verbatim by `SetRNGState`. -/

/-- Decimal digits of `n`, most significant first, via structural fuel
(so that concrete evaluation reduces in the kernel). -/
def natCharsAux : ℕ → ℕ → List Char
  | 0, _ => []
  | fuel+1, n =>
    if n = 0 then [] else natCharsAux fuel (n / 10) ++ [Char.ofNat (48 + n % 10)]

/-- `%d` rendering of a natural number. -/
def natChars (n : ℕ) : List Char := if n = 0 then ['0'] else natCharsAux (n+1) n

/-- `%d` rendering of a C++ `int`. -/
def intChars (i : Int) : List Char :=
  if i < 0 then '-' :: natChars (-i).toNat else natChars i.toNat

/-- `%f` rendering of a double: sign, integer part, point, exactly six
fraction digits, the magnitude rounded to six decimal places. -/
def formatF6 (q : ℚ) : List Char :=
  let m : ℕ := (Int.floor (|q| * 1000000 + 1/2)).toNat
  let ip := m / 1000000
  let fp := m % 1000000
  let fpChars := natChars fp
  (if q < 0 then ['-'] else []) ++ natChars ip ++
    '.' :: (List.replicate (6 - fpChars.length) '0' ++ fpChars)

/-- The two-letter phase code used by `ToString` (lines 314-328). -/
def phaseChars : GamePhase → List Char
  | InitialConditions => ['I', 'C']
  | SeatBuying => ['S', 'B']
  | PriceSetting => ['P', 'S']
  | DemandSimulation => ['D', 'S']

/-- The bought-seats block of `ToString` (lines 329-332): each entry
followed by a comma. -/
def seatsCSV (N : ℕ) (s : AState) : List Char :=
  ((List.range N).map (fun i => intChars (s.boughtSeats.getD i 0) ++ [','])).flatten

/-- A history block of `ToString` (lines 334-346): entries in
round-major, player-minor order, each followed by a comma. -/
def histCSV (N : ℕ) (h : List (List Int)) (round : Int) : List Char :=
  ((List.range round.toNat).flatMap
    (fun j => (List.range N).map (fun i => intChars ((h.getD i []).getD j 0) ++ [',']))).flatten

/-- `AirlineSeatsState::ToString` (lines 313-360). -/
def toStringState (N : ℕ) (s : AState) : List Char :=
  intChars s.round ++ '|' :: formatF6 s.c1 ++ '|' :: intChars s.currentPlayer ++
    '|' :: phaseChars s.phase ++ '|' :: seatsCSV N s ++
    '|' :: histCSV N s.sold s.round ++ '|' :: histCSV N s.prices s.round

/-- `AirlineSeatsState::Serialize` (lines 419-428): RNG snapshot, a pipe,
then `ToString()`. -/
def serializeState (rngChars : List Char) (N : ℕ) (s : AState) : List Char :=
  rngChars ++ '|' :: toStringState N s

/-- `absl::StrSplit` on a single delimiter character. -/
def splitOnChar (sep : Char) : List Char → List (List Char)
  | [] => [[]]
  | c :: rest =>
    let r := splitOnChar sep rest
    if c = sep then [] :: r
    else match r with
      | [] => [[c]]
      | piece :: pieces => (c :: piece) :: pieces

/-- The longest leading run of decimal digits, as a number; `none` when
there is no digit (where `std::stoi` / `std::stod` throw). -/
def parseLeadingNat (cs : List Char) : Option ℕ :=
  let digits := cs.takeWhile (fun c => 48 ≤ c.toNat ∧ c.toNat ≤ 57)
  if digits.isEmpty then none
  else some (digits.foldl (fun acc c => 10 * acc + (c.toNat - 48)) 0)

/-- `std::stoi`: optional sign, then digits (further characters ignored). -/
def stoiChars : List Char → Option Int
  | '-' :: rest => (parseLeadingNat rest).map (fun n => -(n : Int))
  | cs => (parseLeadingNat cs).map (fun n => (n : Int))

/-- `std::stod` on the fixed-point strings this serializer emits:
optional sign, integer digits, then optionally a point and fraction
digits. -/
def stodChars (cs : List Char) : Option ℚ :=
  let core : List Char → Option ℚ := fun cs => do
    let ip ← parseLeadingNat cs
    let rest := cs.dropWhile (fun c => 48 ≤ c.toNat ∧ c.toNat ≤ 57)
    match rest with
    | '.' :: fracs =>
      let fdigits := fracs.takeWhile (fun c => 48 ≤ c.toNat ∧ c.toNat ≤ 57)
      let fv ← parseLeadingNat fracs
      pure ((ip : ℚ) + (fv : ℚ) / (10 : ℚ) ^ fdigits.length)
    | _ => pure (ip : ℚ)
  match cs with
  | '-' :: rest => (core rest).map (fun q => -q)
  | _ => core cs

/-- The phase decoding of `DeserializeState` (lines 520-528): an
if/else-if chain whose final `else` maps anything other than the three
named codes to `DemandSimulation`. -/
def decodePhase (cs : List Char) : GamePhase :=
  if cs = ['I', 'C'] then InitialConditions
  else if cs = ['S', 'B'] then SeatBuying
  else if cs = ['P', 'S'] then PriceSetting
  else DemandSimulation

/-- The history-reconstruction loops of `DeserializeState` (lines 535-553):
for `j < round`, `i < N`, push `stoi(entries[i + j*N])` onto player `i`'s
list.  (`vector::operator[]` out of range is UB; modelled as failure.) -/
def rebuildHist (entries : List (List Char)) (N : ℕ) : ℕ → List (List Int) →
    Option (List (List Int))
  | 0, hist => some hist
  | j+1, hist => do
    let hist' ← rebuildHist entries N j hist
    let vals ← (List.range N).mapM
      (fun i => (entries.get? (i + j * N)).bind stoiChars)
    pure (appendEach (fun i => vals.getD i 0) 0 hist')

/-- `AirlineSeatsGame::DeserializeState` (lines 508-558).  Returns the
restored RNG snapshot (the argument of `SetRNGState`) together with the
reconstructed state; `none` models a thrown exception (`.at` out of
range, `stoi`/`stod` on a non-numeric field). -/
def deserializeState (N : ℕ) (str : List Char) : Option (List Char × AState) := do
  let lines := splitOnChar '|' str
  let rngChars ← lines.get? 0
  let round ← (lines.get? 1).bind stoiChars
  let c1 ← (lines.get? 2).bind stodChars
  let player ← (lines.get? 3).bind stoiChars
  let phaseField ← lines.get? 4
  let phase := decodePhase phaseField
  let seats ← lines.get? 5
  let seatEntries := splitOnChar ',' seats
  let bought ← (List.range N).mapM (fun i => (seatEntries.get? i).bind stoiChars)
  let soldField ← lines.get? 6
  let sold ← rebuildHist (splitOnChar ',' soldField) N round.toNat (List.replicate N [])
  let pricesField ← lines.get? 7
  let prices ← rebuildHist (splitOnChar ',' pricesField) N round.toNat (List.replicate N [])
  pure (rngChars,
    { round := round
      boughtSeats := bought
      sold := sold
      prices := prices
      c1 := c1
      currentPlayer := player
      phase := phase })

/-! ### Concrete instantiations used by counterexamples and witnesses

The abstract `pow` and the RNG stream must be instantiated to evaluate
concrete runs.  Any instantiation is a legitimate model instance: the
claims quantify over states and streams, and `pw0` below (constantly `1`)
keeps every intermediate value rational and nonzero. -/

/-- A concrete instantiation of the C `pow` collaborator. -/
def pw0 : ℚ → ℚ → ℚ := fun _ _ => 1

/-- A concrete uniform stream: every draw is `1/2`. -/
def rngHalf : ℕ → ℚ := fun _ => 1/2

/-- A concrete uniform stream: every draw is `1 / (2^32 - 1)`, i.e. the
mt19937 output `1` normalised by `RNGMax()`. -/
def rngSmall : ℕ → ℚ := fun _ => 1/4294967295

/-- The action sequence of a full two-player match: the forced initial
chance action, two seat purchases, then ten rounds of two price settings
and the forced demand-simulation chance action. -/
def seqFull : List Int :=
  [0, 0, 0] ++ (List.replicate 10 [(5 : Int), 5, 0]).flatten

/-- A stand-in mt19937 snapshot (any pipe-free text; the real
`GetRNGState` output is space-separated decimal numbers). -/
def rngSnapshot : List Char := ['1', '2', '3']

/-- The state reached from the two-player initial state by the single
`InitialConditions` chance action under the stream `rngSmall`:
`c1 = (1/4294967295) * (-53/1000) + (-6/25)`. -/
def sAfterIC : AState :=
  { round := 0
    boughtSeats := [0, 0]
    sold := [[], []]
    prices := [[], []]
    c1 := -1030792150853/4294967295000
    currentPlayer := 0
    phase := SeatBuying }

/-- What `DeserializeState` reconstructs from the serialized form of
`sAfterIC`: identical except that `c1` collapsed to the six-decimal
rendering `-0.240000`. -/
def sAfterICParsed : AState :=
  { sAfterIC with c1 := -6/25 }

/-- The reachable state after `[IC, buy, buy, price]` under `rngHalf`:
player 0 has already set this round's price, player 1 has not, the round
counter is still `0`. -/
def sMidPrice : AState :=
  { round := 0
    boughtSeats := [0, 0]
    sold := [[], []]
    prices := [[50], []]
    c1 := -533/2000
    currentPlayer := 1
    phase := PriceSetting }

/-- The reachable state after one full round (both players price at 50,
then the demand chance action) under `pw0` / `rngHalf`. -/
def sRoundOne : AState :=
  { round := 1
    boughtSeats := [0, 0]
    sold := [[18], [18]]
    prices := [[50], [50]]
    c1 := -533/2000
    currentPlayer := 0
    phase := PriceSetting }

/-- The terminal state of the full two-player match `seqFull` under
`pw0` / `rngHalf`. -/
def sTerminal : AState :=
  { round := 10
    boughtSeats := [0, 0]
    sold := [List.replicate 10 18, List.replicate 10 18]
    prices := [List.replicate 10 50, List.replicate 10 50]
    c1 := -533/2000
    currentPlayer := -4
    phase := PriceSetting }

/-- The state the transition function produces when action `5` is
submitted at the terminal state: the price-setting logic runs (the write
to `prices_[-4]` is out-of-bounds UB in C++, modelled as a no-op) and the
actor marker is mutated from `-4` to `-3`. -/
def sTerminalNext : AState :=
  { sTerminal with currentPlayer := -3 }

/-! ### Amended C4 invariant vocabulary -/

/-- How many entries player `i`'s price history holds beyond `round`:
`1` when the player has already chosen this round's price (all players
during `DemandSimulation`; during `PriceSetting` exactly the players
before the current actor, none at the terminal marker), `0` otherwise. -/
def pricedCount (s : AState) (i : ℕ) : ℕ :=
  match s.phase with
  | DemandSimulation => 1
  | PriceSetting => if (i : Int) < s.currentPlayer then 1 else 0
  | _ => 0

/-- The phase/actor/round relationships that hold in every reachable
state. -/
def phaseCond (N : ℕ) (s : AState) : Prop :=
  match s.phase with
  | InitialConditions => s.round = 0 ∧ s.currentPlayer = chancePlayerId
  | SeatBuying => s.round = 0 ∧ 0 ≤ s.currentPlayer ∧ s.currentPlayer < N
  | PriceSetting =>
      (s.round < 10 ∧ 0 ≤ s.currentPlayer ∧ s.currentPlayer < N) ∨
      (s.round = 10 ∧ s.currentPlayer = terminalPlayerId)
  | DemandSimulation => s.round < 10 ∧ s.currentPlayer = chancePlayerId

/-- The reachable-state invariant. -/
structure Inv (N : ℕ) (s : AState) : Prop where
  boughtLen : s.boughtSeats.length = N
  soldLen : s.sold.length = N
  pricesLen : s.prices.length = N
  roundNonneg : 0 ≤ s.round
  roundLe : s.round ≤ 10
  soldEach : ∀ i, i < N → (s.sold.getD i []).length = s.round.toNat
  pricesEach : ∀ i, i < N →
    (s.prices.getD i []).length = s.round.toNat + pricedCount s i
  phaseInv : phaseCond N s

/-! ### List helper lemmas -/

theorem length_updAtNat (f : α → α) (n : ℕ) (l : List α) :
    (updAtNat f n l).length = l.length := by
  induction l generalizing n with
  | nil => cases n <;> rfl
  | cons a l ih =>
    cases n with
    | zero => rfl
    | succ n => simp [updAtNat, ih]

theorem getD_updAtNat_self (f : α → α) (d : α) (n : ℕ) (l : List α)
    (h : n < l.length) : (updAtNat f n l).getD n d = f (l.getD n d) := by
  induction l generalizing n with
  | nil => simp at h
  | cons a l ih =>
    cases n with
    | zero => rfl
    | succ n =>
      simp only [updAtNat, List.getD_cons_succ]
      exact ih n (by simpa using h)

theorem getD_updAtNat_ne (f : α → α) (d : α) :
    ∀ (m n : ℕ), m ≠ n → ∀ (l : List α),
      (updAtNat f n l).getD m d = l.getD m d := by
  intro m n hmn l
  induction l generalizing m n with
  | nil => cases n <;> rfl
  | cons a l ih =>
    cases n with
    | zero => cases m with
      | zero => exact absurd rfl hmn
      | succ m => rfl
    | succ n =>
      cases m with
      | zero => rfl
      | succ m =>
        simp only [updAtNat, List.getD_cons_succ]
        exact ih m n (fun h => hmn (by omega))

theorem length_updAt (f : α → α) (i : Int) (l : List α) :
    (updAt f i l).length = l.length := by
  unfold updAt
  split
  · exact length_updAtNat f i.toNat l
  · rfl

theorem length_appendEach (v : ℕ → Int) (k : ℕ) (l : List (List Int)) :
    (appendEach v k l).length = l.length := by
  induction l generalizing k with
  | nil => rfl
  | cons x l ih => simp [appendEach, ih]

theorem getD_appendEach (v : ℕ → Int) (k : ℕ) (l : List (List Int)) (i : ℕ)
    (h : i < l.length) :
    (appendEach v k l).getD i [] = l.getD i [] ++ [v (k + i)] := by
  induction l generalizing k i with
  | nil => simp at h
  | cons x l ih =>
    cases i with
    | zero => simp [appendEach]
    | succ i =>
      simp only [appendEach, List.getD_cons_succ]
      rw [ih (k+1) i (by simpa using h)]
      have hk : k + 1 + i = k + (i + 1) := by omega
      rw [hk]

/-! ### Bridge lemmas for the scoring engine -/

/-- The claim-side accumulation is the same function as the translated
`Returns` loop. -/
theorem claimAccum_eq_foldl : ∀ (L : List (Int × Int)) (a : ℚ) (b : Int),
    claimAccum a b L = (L.foldl returnsLoopBody (a, b)).1
  | [], a, b => rfl
  | (x, p) :: rest, a, b => by
    simp only [claimAccum, List.foldl_cons, returnsLoopBody, kLatePurchasePrice]
    split
    · split
      · exact claimAccum_eq_foldl rest _ _
      · exact claimAccum_eq_foldl rest _ _
    · exact claimAccum_eq_foldl rest _ _

/-- One `Returns`-loop pass equals adding the round's spec-modelled
reward increment while stepping the `seats_left` bookkeeping. -/
theorem returnsLoopBody_eq (A : ℚ) (SL : Int) (xp : Int × Int) :
    returnsLoopBody (A, SL) xp =
      (A + roundReward SL xp.1 xp.2, if SL > 0 then SL - xp.1 else SL) := by
  unfold returnsLoopBody roundReward kLatePurchasePrice
  split_ifs with h1 h2 <;>
    refine Prod.ext ?_ rfl <;> push_cast <;> ring

/-- Folding the `Returns` loop over the first `n` rounds yields the start
value plus the sum of spec-modelled per-round rewards, with the
`seats_left` bookkeeping as second component. -/
theorem foldl_returnsLoopBody_split (data : ℕ → Int × Int) (b : Int) (a : ℚ) :
    ∀ n : ℕ,
      ((List.range n).map data).foldl returnsLoopBody (a, b) =
        (a + ∑ r ∈ Finset.range n,
          roundReward (seatsLeftAfter b ((List.range r).map (fun j => (data j).1)))
            (data r).1 (data r).2,
         seatsLeftAfter b ((List.range n).map (fun j => (data j).1))) := by
  intro n
  induction n with
  | zero => simp [seatsLeftAfter]
  | succ n ih =>
    rw [List.range_succ, List.map_append, List.foldl_append, ih]
    simp only [List.map_cons, List.map_nil, List.foldl_cons, List.foldl_nil]
    rw [returnsLoopBody_eq]
    simp only [Prod.mk.injEq]
    constructor
    · rw [Finset.sum_range_succ]
      ring
    · simp [seatsLeftAfter, List.map_append, List.foldl_append]

/-! ### Invariant preservation -/

theorem getD_replicate (d x : α) (N i : ℕ) (h : i < N) :
    (List.replicate N x).getD i d = x := by
  induction N generalizing i with
  | zero => omega
  | succ N ih =>
    cases i with
    | zero => rfl
    | succ i => exact ih i (by omega)

theorem lt_of_not_terminal {s : AState} (h : isTerminal s = false) : s.round < 10 := by
  unfold isTerminal kMaxRounds at h
  simp only [decide_eq_false_iff_not, not_le, ge_iff_le] at h
  omega

theorem inv_init (N : ℕ) : Inv N (initialState N) := by
  refine ⟨by simp [initialState], by simp [initialState], by simp [initialState],
    by simp [initialState, kInitialRound], by simp [initialState, kInitialRound],
    ?_, ?_, ?_⟩
  · intro i hi
    simp [initialState, getD_replicate [] [] N i hi, kInitialRound]
  · intro i hi
    simp [initialState, getD_replicate [] [] N i hi, kInitialRound, pricedCount]
  · exact ⟨rfl, rfl⟩

theorem inv_stepInitialConditions {N : ℕ} {s : AState} (hN : 1 ≤ N) (hI : Inv N s)
    (hph : s.phase = InitialConditions) (u : ℚ) :
    Inv N (stepInitialConditions u s) := by
  obtain ⟨hb, hs, hp, hr0, hr10, hse, hpe, hpc⟩ := hI
  simp only [phaseCond, hph] at hpc
  refine ⟨hb, hs, hp, hr0, hr10, hse, ?_, ?_⟩
  · intro i hi
    have hold := hpe i hi
    simp only [pricedCount, hph] at hold
    simp only [stepInitialConditions, pricedCount]
    exact hold
  · simp only [stepInitialConditions, phaseCond, kInitialPlayer]
    refine ⟨hpc.1, by omega, by omega⟩

theorem inv_stepSeatBuying {N : ℕ} {s : AState} (hI : Inv N s)
    (hph : s.phase = SeatBuying) (move : Int) :
    Inv N (stepSeatBuying N move s) := by
  obtain ⟨hb, hs, hp, hr0, hr10, hse, hpe, hpc⟩ := hI
  simp only [phaseCond, hph] at hpc
  obtain ⟨hround, hcp0, hcpN⟩ := hpc
  by_cases hcond : s.currentPlayer + 1 ≥ (N : Int)
  · refine ⟨?_, ?_, ?_, ?_, ?_, ?_, ?_, ?_⟩ <;>
      simp only [stepSeatBuying, hcond, if_true, ite_true]
    · rw [length_updAt]
      exact hb
    · exact hs
    · exact hp
    · exact hr0
    · exact hr10
    · exact hse
    · intro i hi
      have hold := hpe i hi
      simp only [pricedCount, hph] at hold
      simp only [pricedCount, kInitialPlayer]
      rw [if_neg (by omega)]
      exact hold
    · simp only [phaseCond, kInitialPlayer]
      left
      omega
  · refine ⟨?_, ?_, ?_, ?_, ?_, ?_, ?_, ?_⟩ <;>
      simp only [stepSeatBuying, hcond, if_false, ite_false]
    · rw [length_updAt]
      exact hb
    · exact hs
    · exact hp
    · exact hr0
    · exact hr10
    · exact hse
    · intro i hi
      have hold := hpe i hi
      simp only [pricedCount, hph] at hold
      simp only [pricedCount, hph]
      exact hold
    · simp only [phaseCond, hph]
      refine ⟨hround, by omega, by omega⟩

theorem inv_stepPriceSetting {N : ℕ} {s : AState} (hI : Inv N s)
    (hph : s.phase = PriceSetting) (hr : s.round < 10) (move : Int) :
    Inv N (stepPriceSetting N move s) := by
  obtain ⟨hb, hs, hp, hr0, hr10, hse, hpe, hpc⟩ := hI
  simp only [phaseCond, hph] at hpc
  rcases hpc with ⟨h10, hcp0, hcpN⟩ | ⟨h10, _⟩
  swap
  · omega
  have hmN : s.currentPlayer.toNat < N := by omega
  have hpricesAt : ∀ i, i < N →
      ((updAt (fun l => l ++ [(move - 5) * 5 + 50]) s.currentPlayer s.prices).getD i []).length =
        s.round.toNat + (if (i : Int) < s.currentPlayer + 1 then 1 else 0) := by
    intro i hi
    unfold updAt
    rw [if_pos hcp0]
    by_cases hieq : i = s.currentPlayer.toNat
    · subst hieq
      rw [getD_updAtNat_self _ _ _ _ (by rw [hp]; exact hmN)]
      have hold := hpe s.currentPlayer.toNat hmN
      simp only [pricedCount, hph] at hold
      rw [if_neg (by omega)] at hold
      rw [if_pos (by omega)]
      simp only [List.length_append, List.length_cons, List.length_nil]
      omega
    · rw [getD_updAtNat_ne _ _ _ _ (fun h => hieq h)]
      have hold := hpe i hi
      simp only [pricedCount, hph] at hold
      rw [hold]
      by_cases hlt : (i : Int) < s.currentPlayer
      · rw [if_pos hlt, if_pos (by omega)]
      · rw [if_neg hlt, if_neg (by omega)]
  by_cases hcond : s.currentPlayer + 1 ≥ (N : Int)
  · refine ⟨?_, ?_, ?_, ?_, ?_, ?_, ?_, ?_⟩ <;>
      simp only [stepPriceSetting, hcond, if_true, ite_true]
    · exact hb
    · exact hs
    · rw [length_updAt]
      exact hp
    · exact hr0
    · exact hr10
    · exact hse
    · intro i hi
      rw [hpricesAt i hi]
      simp only [pricedCount]
      rw [if_pos (by omega)]
    · simp only [phaseCond]
      exact ⟨hr, trivial⟩
  · refine ⟨?_, ?_, ?_, ?_, ?_, ?_, ?_, ?_⟩ <;>
      simp only [stepPriceSetting, hcond, if_false, ite_false]
    · exact hb
    · exact hs
    · rw [length_updAt]
      exact hp
    · exact hr0
    · exact hr10
    · exact hse
    · intro i hi
      rw [hpricesAt i hi]
      simp only [pricedCount, hph]
    · simp only [phaseCond, hph]
      left
      omega

theorem inv_stepDemandSimulation {N : ℕ} {s : AState} (hN : 1 ≤ N)
    (pw : ℚ → ℚ → ℚ) (u : ℕ → ℚ) (k : ℕ) (hI : Inv N s)
    (hph : s.phase = DemandSimulation) (hr : s.round < 10) :
    Inv N (stepDemandSimulation pw N u k s) := by
  obtain ⟨hb, hs, hp, hr0, hr10, hse, hpe, hpc⟩ := hI
  simp only [phaseCond, hph] at hpc
  refine ⟨?_, ?_, ?_, ?_, ?_, ?_, ?_, ?_⟩ <;>
    (try simp only [stepDemandSimulation])
  · exact hb
  · rw [length_appendEach]
    exact hs
  · exact hp
  · omega
  · omega
  · intro i hi
    rw [getD_appendEach _ _ _ _ (by rw [hs]; exact hi)]
    simp only [List.length_append, List.length_cons, List.length_nil]
    rw [hse i hi]
    omega
  · intro i hi
    have hold := hpe i hi
    simp only [pricedCount, hph] at hold
    simp only [pricedCount]
    split
    · rw [if_neg (by simp only [terminalPlayerId]; omega)]
      omega
    · rw [if_neg (by simp only [kInitialPlayer]; omega)]
      omega
  · simp only [phaseCond, kMaxRounds, kInitialPlayer, terminalPlayerId]
    split
    · right
      omega
    · left
      omega

theorem inv_step {pw : ℚ → ℚ → ℚ} {N : ℕ} {u : ℕ → ℚ} {k : ℕ} {s : AState}
    {a : Int} {s' : AState} {k' : ℕ} (hN : 1 ≤ N) (hI : Inv N s)
    (hterm : isTerminal s = false)
    (h : doApplyAction pw N u k s a = some (s', k')) : Inv N s' := by
  have hr : s.round < 10 := lt_of_not_terminal hterm
  unfold doApplyAction at h
  split at h
  · exact absurd h (by simp)
  · rw [Option.some.injEq] at h
    cases hph : s.phase <;> rw [hph] at h
    · injection h with h1 h2
      rw [← h1]
      exact inv_stepInitialConditions hN hI hph (u k)
    · injection h with h1 h2
      rw [← h1]
      exact inv_stepSeatBuying hI hph a
    · injection h with h1 h2
      rw [← h1]
      exact inv_stepPriceSetting hI hph hr a
    · injection h with h1 h2
      rw [← h1]
      exact inv_stepDemandSimulation hN pw u k hI hph hr

theorem inv_reachable {pw : ℚ → ℚ → ℚ} {N : ℕ} {u : ℕ → ℚ} {s : AState} {k : ℕ}
    (hN : 1 ≤ N) (h : Reachable pw N u s k) : Inv N s := by
  induction h with
  | init => exact inv_init N
  | step hr hterm happ ih => exact inv_step hN ih hterm happ

/-- Running a list of actions from a reachable configuration lands on a
reachable configuration. -/
theorem reachable_runActions {pw : ℚ → ℚ → ℚ} {N : ℕ} {u : ℕ → ℚ} :
    ∀ {acts : List Int} {k : ℕ} {s : AState} {s' : AState} {k' : ℕ},
      runActions pw N u k s acts = some (s', k') → Reachable pw N u s k →
        Reachable pw N u s' k' := by
  intro acts
  induction acts with
  | nil =>
    intro k s s' k' h hre
    simp only [runActions, Option.some.injEq, Prod.mk.injEq] at h
    rw [← h.1, ← h.2]
    exact hre
  | cons a rest ih =>
    intro k s s' k' h hre
    simp only [runActions] at h
    split at h
    · exact absurd h (by simp)
    · rename_i hterm
      split at h
      · exact absurd h (by simp)
      · rename_i s2 k2 happ
        exact ih h (Reachable.step hre (by simpa using hterm) happ)

/-! ### Claim theorems -/

section ClaimTheorems

attribute [local semireducible] Rat.add Rat.mul Rat.inv Rat.sub

/-- C2: for every state, `Returns()` gives, for each player, exactly the
claimed accumulation — pnl starts at `-bought_seats[p] * 50`; each
completed round adds `sold * price`; while `seats_left` (initialised to
`bought_seats[p]`) is positive it is reduced by the round's sold
quantity and, if it goes negative, `(-seats_left) * 80` is subtracted;
once `seats_left ≤ 0` the entire round's sold quantity is penalised at
`80` per seat — and is all zeros when the state is not terminal. -/
theorem c2_returns_accumulation (N : ℕ) (s : AState) :
    returnsModel N s = returnsClaim N s := by
  unfold returnsModel returnsClaim
  split
  · refine List.map_congr_left ?_
    intro i _
    unfold playerPnl
    dsimp only
    rw [claimAccum_eq_foldl]
    have hinit : ((s.boughtSeats.getD i 0 : Int) : ℚ) * (-kInitialPurchasePrice) =
        -((s.boughtSeats.getD i 0 : Int) : ℚ) * 50 := by
      simp only [kInitialPurchasePrice]
      ring
    rw [hinit]
  · rfl

/-- C3: every `DemandSimulation` step appends, for each player `i`, the
seats-sold value `round(total_demand * (1 + r[i]) * share[i])`, where
`share[i] = price[i]^(-50) / power_sum`, `total_demand = 36 +
power_sum^(1/(-50)) * c1` with the negative exponent computed sign-aware
as `1/(a^|b|)`, and `r[i] = ((u-0.5)*20)/100`; the result does not
depend on `bought_seats` (no clamping to owned inventory). -/
theorem c3_demand_sold_formula (pw : ℚ → ℚ → ℚ) (N : ℕ) (u : ℕ → ℚ) (k : ℕ)
    (s : AState) (i : ℕ) (hi : i < N) (hlen : s.sold.length = N) :
    (stepDemandSimulation pw N u k s).sold.getD i [] =
      s.sold.getD i [] ++
        [roundHalfAway
          ((36 + (1 / pw (((List.range N).map
                (fun j => pw ((lastD (s.prices.getD j [])) : ℚ) (-50))).sum) (1/50)) * s.c1) *
            (1 + ((u (k + i) - 1/2) * 20) / 100) *
            (pw ((lastD (s.prices.getD i [])) : ℚ) (-50) /
              ((List.range N).map
                (fun j => pw ((lastD (s.prices.getD j [])) : ℚ) (-50))).sum))] ∧
    ∀ b, (stepDemandSimulation pw N u k { s with boughtSeats := b }).sold =
      (stepDemandSimulation pw N u k s).sold := by
  constructor
  · show (appendEach (dsSoldVal pw N u k s) 0 s.sold).getD i [] = _
    rw [getD_appendEach _ _ _ _ (by rw [hlen]; exact hi), Nat.zero_add]
    congr 1
    unfold dsSoldVal dsTotalDemand dsPowerSum dsPowers dsRandom my_pow kC0 kDefaultPower
      kDefaultRandom
    rw [if_pos (by norm_num)]
    have habs : |1 / ((-50 : ℚ))| = 1/50 := by
      rw [abs_of_nonpos (by norm_num)]
      norm_num
    rw [habs]
    congr 1
    ring_nf
  · intro b
    rfl

/-- C4 (as stated, refuted): at the reachable state in which player 0 has
set this round's price but the round counter has not yet advanced,
`len(prices[0])` is `1` while `round` is `0`, so the claimed equality
`len(sold[p]) == len(prices[p]) == round` at every observable boundary
fails. -/
theorem c4_counterexample :
    runActions pw0 2 rngHalf 0 (initialState 2) [0, 0, 0, 5] = some (sMidPrice, 1) ∧
    Reachable pw0 2 rngHalf sMidPrice 1 ∧
    (sMidPrice.sold.getD 0 []).length = sMidPrice.round.toNat ∧
    ¬ ((sMidPrice.prices.getD 0 []).length = sMidPrice.round.toNat) := by
  have hrun : runActions pw0 2 rngHalf 0 (initialState 2) [0, 0, 0, 5] =
      some (sMidPrice, 1) := by decide
  exact ⟨hrun, reachable_runActions hrun Reachable.init, by decide, by decide⟩

/-- C4 (amended): at every reachable state, `len(sold[p]) == round` for
every player, and `len(prices[p]) == round` except for players who have
already set this round's price (during `PriceSetting`, the players
before the current actor; during `DemandSimulation`, all players), whose
price list holds one extra entry. -/
theorem c4_history_lengths {pw : ℚ → ℚ → ℚ} {N : ℕ} {u : ℕ → ℚ} {s : AState}
    {k : ℕ} (hN : 1 ≤ N) (h : Reachable pw N u s k) (i : ℕ) (hi : i < N) :
    (s.sold.getD i []).length = s.round.toNat ∧
    (s.prices.getD i []).length = s.round.toNat + pricedCount s i := by
  have hI := inv_reachable hN h
  exact ⟨hI.soldEach i hi, hI.pricesEach i hi⟩

/-- Witness for C4 (amended), at the reachable mid-price-setting state. -/
theorem c4_history_lengths_witness :
    1 ≤ 2 ∧ 0 < 2 ∧
    ((sMidPrice.sold.getD 0 []).length = sMidPrice.round.toNat ∧
     (sMidPrice.prices.getD 0 []).length = sMidPrice.round.toNat + pricedCount sMidPrice 0) := by
  have hrun : runActions pw0 2 rngHalf 0 (initialState 2) [0, 0, 0, 5] =
      some (sMidPrice, 1) := by decide
  exact ⟨by decide, by decide,
    c4_history_lengths (by decide) (reachable_runActions hrun Reachable.init) 0 (by decide)⟩

/-- C5: the claim's immutability of terminal states fails on the code.
The terminal state of a full match keeps phase `PriceSetting`, so
`LegalActions` still offers the price actions, `ActionInActions`
accepts action `5`, and `DoApplyAction` applies the price-setting logic
— mutating the actor marker from `-4` to `-3` (and indexing
`prices_[-4]`, undefined behaviour in C++) — instead of rejecting it. -/
theorem c5_terminal_accepts_actions :
    runActions pw0 2 rngHalf 0 (initialState 2) seqFull = some (sTerminal, 21) ∧
    Reachable pw0 2 rngHalf sTerminal 21 ∧
    isTerminal sTerminal = true ∧
    sTerminal.round = 10 ∧
    actionInActions sTerminal 5 = true ∧
    doApplyAction pw0 2 rngHalf 21 sTerminal 5 = some (sTerminalNext, 21) ∧
    sTerminalNext ≠ sTerminal := by
  have hrun : runActions pw0 2 rngHalf 0 (initialState 2) seqFull =
      some (sTerminal, 21) := by decide
  exact ⟨hrun, reachable_runActions hrun Reachable.init, by decide, by decide,
    by decide, by decide, by decide⟩

/-- C6: during `SeatBuying`, buy action id `i` (0-indexed) records
`bought_seats[actor] = i * 5`; during `PriceSetting`, the `j`-th price
action (action id `5 + j`) appends price `50 + j * 5` to
`prices[actor]`. -/
theorem c6_codec_effects (N : ℕ) (s : AState) (i j : ℕ) (_hi : i < 5) (_hj : j < 5)
    (hcp : 0 ≤ s.currentPlayer) (hb : s.currentPlayer.toNat < s.boughtSeats.length)
    (hp : s.currentPlayer.toNat < s.prices.length) :
    (stepSeatBuying N (i : Int) s).boughtSeats.getD s.currentPlayer.toNat 0 =
      (i : Int) * 5 ∧
    (stepPriceSetting N (5 + (j : Int)) s).prices.getD s.currentPlayer.toNat [] =
      s.prices.getD s.currentPlayer.toNat [] ++ [50 + (j : Int) * 5] := by
  constructor
  · have hbought : (stepSeatBuying N (i : Int) s).boughtSeats =
        updAtNat (fun _ => (i : Int) * 5) s.currentPlayer.toNat s.boughtSeats := by
      unfold stepSeatBuying updAt
      dsimp only
      rw [if_pos hcp]
      split <;> rfl
    rw [hbought, getD_updAtNat_self _ _ _ _ hb]
  · have hprices : (stepPriceSetting N (5 + (j : Int)) s).prices =
        updAtNat (fun l => l ++ [(5 + (j : Int) - 5) * 5 + 50])
          s.currentPlayer.toNat s.prices := by
      unfold stepPriceSetting updAt
      dsimp only
      rw [if_pos hcp]
      split <;> rfl
    rw [hprices, getD_updAtNat_self _ _ _ _ hp]
    have hval : (5 + (j : Int) - 5) * 5 + 50 = 50 + (j : Int) * 5 := by ring
    rw [hval]

/-- Witness for C6 at the reachable post-initial-conditions state. -/
theorem c6_codec_effects_witness :
    (2 : ℕ) < 5 ∧ (1 : ℕ) < 5 ∧ (0 : Int) ≤ sAfterIC.currentPlayer ∧
    sAfterIC.currentPlayer.toNat < sAfterIC.boughtSeats.length ∧
    sAfterIC.currentPlayer.toNat < sAfterIC.prices.length ∧
    ((stepSeatBuying 2 ((2 : ℕ) : Int) sAfterIC).boughtSeats.getD
        sAfterIC.currentPlayer.toNat 0 = ((2 : ℕ) : Int) * 5 ∧
     (stepPriceSetting 2 (5 + ((1 : ℕ) : Int)) sAfterIC).prices.getD
        sAfterIC.currentPlayer.toNat [] =
       sAfterIC.prices.getD sAfterIC.currentPlayer.toNat [] ++
         [50 + ((1 : ℕ) : Int) * 5]) :=
  ⟨by decide, by decide, by decide, by decide, by decide,
    c6_codec_effects 2 sAfterIC 2 1 (by decide) (by decide) (by decide) (by decide)
      (by decide)⟩

/-- C7: `LegalActions` returns exactly the five buy ids `{0..4}`
(quantities `{0,5,10,15,20}`) in every `SeatBuying` state, exactly the
five price ids `{5..9}` (prices `{50,..,70}`) in every `PriceSetting`
state, the single sentinel id `0` in every `InitialConditions` or
`DemandSimulation` state, and any id outside the current phase's set is
rejected by the transition function. -/
theorem c7_legal_actions (s : AState) :
    (s.phase = SeatBuying →
      legalActions s = [0, 1, 2, 3, 4] ∧ (legalActions s).length = 5 ∧
      (legalActions s).Nodup ∧
      (legalActions s).map (fun a => a * 5) = [0, 5, 10, 15, 20]) ∧
    (s.phase = PriceSetting →
      legalActions s = [5, 6, 7, 8, 9] ∧ (legalActions s).length = 5 ∧
      (legalActions s).Nodup ∧
      (legalActions s).map (fun a => (a - 5) * 5 + 50) = [50, 55, 60, 65, 70]) ∧
    ((s.phase = InitialConditions ∨ s.phase = DemandSimulation) →
      legalActions s = [0]) ∧
    (∀ (pw : ℚ → ℚ → ℚ) (N : ℕ) (u : ℕ → ℚ) (k : ℕ) (a : Int),
      a ∉ legalActions s → doApplyAction pw N u k s a = none) := by
  refine ⟨?_, ?_, ?_, ?_⟩
  · intro h
    have hl : legalActions s = [0, 1, 2, 3, 4] := by simp [legalActions, h]
    rw [hl]
    exact ⟨rfl, rfl, by decide, rfl⟩
  · intro h
    have hl : legalActions s = [5, 6, 7, 8, 9] := by simp [legalActions, h]
    rw [hl]
    exact ⟨rfl, rfl, by decide, rfl⟩
  · intro h
    rcases h with h | h <;> simp [legalActions, h]
  · intro pw N u k a ha
    have hfalse : actionInActions s a = false := by
      unfold actionInActions List.contains
      simp only [List.elem_eq_mem, decide_eq_false_iff_not]
      exact ha
    simp [doApplyAction, hfalse]

/-- Witness for C7 at the reachable price-setting state, including the
rejection of the out-of-phase buy id `3`. -/
theorem c7_legal_actions_witness :
    sMidPrice.phase = PriceSetting ∧
    (legalActions sMidPrice = [5, 6, 7, 8, 9] ∧ (legalActions sMidPrice).length = 5 ∧
      (legalActions sMidPrice).Nodup ∧
      (legalActions sMidPrice).map (fun a => (a - 5) * 5 + 50) = [50, 55, 60, 65, 70]) ∧
    (3 : Int) ∉ legalActions sMidPrice ∧
    doApplyAction pw0 2 rngHalf 1 sMidPrice 3 = none :=
  ⟨rfl, (c7_legal_actions sMidPrice).2.1 rfl, by decide,
    (c7_legal_actions sMidPrice).2.2.2 pw0 2 rngHalf 1 3 (by decide)⟩

/-- C8: the transition function validates the submitted action against
the current phase's legal set first — an id outside the set is a fatal
error (modelled `none`) before any phase logic runs, leaving no state
change, while an id in the set is dispatched to the phase transition
without error. -/
theorem c8_validation_dispatch (pw : ℚ → ℚ → ℚ) (N : ℕ) (u : ℕ → ℚ) (k : ℕ)
    (s : AState) (a : Int) :
    (actionInActions s a = true ↔ a ∈ legalActions s) ∧
    (a ∉ legalActions s → doApplyAction pw N u k s a = none) ∧
    (a ∈ legalActions s →
      doApplyAction pw N u k s a = some (match s.phase with
        | InitialConditions => (stepInitialConditions (u k) s, k + 1)
        | SeatBuying => (stepSeatBuying N a s, k)
        | PriceSetting => (stepPriceSetting N a s, k)
        | DemandSimulation => (stepDemandSimulation pw N u k s, k + N))) := by
  have hiff : actionInActions s a = true ↔ a ∈ legalActions s := by
    unfold actionInActions List.contains
    simp [List.elem_eq_mem]
  refine ⟨hiff, ?_, ?_⟩
  · intro ha
    have hfalse : actionInActions s a = false := by
      unfold actionInActions List.contains
      simp only [List.elem_eq_mem, decide_eq_false_iff_not]
      exact ha
    simp [doApplyAction, hfalse]
  · intro ha
    have htrue : actionInActions s a = true := hiff.mpr ha
    simp [doApplyAction, htrue]

/-- Witness for C8: a legal and an illegal action at the reachable
price-setting state. -/
theorem c8_validation_dispatch_witness :
    ((9 : Int) ∈ legalActions sMidPrice) ∧
    doApplyAction pw0 2 rngHalf 1 sMidPrice 9 = some (stepPriceSetting 2 9 sMidPrice, 1) ∧
    ((2 : Int) ∉ legalActions sMidPrice) ∧
    doApplyAction pw0 2 rngHalf 1 sMidPrice 2 = none :=
  ⟨by decide,
    (c8_validation_dispatch pw0 2 rngHalf 1 sMidPrice 9).2.2 (by decide),
    by decide,
    (c8_validation_dispatch pw0 2 rngHalf 1 sMidPrice 2).2.1 (by decide)⟩

/-- C9: the claim's distinct-slot tensor encoding fails on the code.  At
the reachable round-one state both sold entries are written to the same
slot 13 (slot 14 stays zero) and both price entries to the same slot 33,
because the writer never advances its offset inside the history loops;
the encoding the spec describes (`informationStateTensorSpec`) differs. -/
theorem c9_tensor_overwrites_history_slots :
    runActions pw0 2 rngHalf 0 (initialState 2) [0, 0, 0, 5, 5, 0] = some (sRoundOne, 3) ∧
    Reachable pw0 2 rngHalf sRoundOne 3 ∧
    (informationStateTensor 2 sRoundOne 0).getD 13 0 = 18 ∧
    (informationStateTensor 2 sRoundOne 0).getD 14 0 = 0 ∧
    (informationStateTensorSpec 2 sRoundOne 0).getD 13 0 = 18 ∧
    (informationStateTensorSpec 2 sRoundOne 0).getD 14 0 = 18 ∧
    informationStateTensor 2 sRoundOne 0 ≠ informationStateTensorSpec 2 sRoundOne 0 := by
  have hrun : runActions pw0 2 rngHalf 0 (initialState 2) [0, 0, 0, 5, 5, 0] =
      some (sRoundOne, 3) := by decide
  exact ⟨hrun, reachable_runActions hrun Reachable.init, by decide, by decide,
    by decide, by decide, by decide⟩

/-- C10: the spec-modelled per-round incremental rewards perform the same
accumulation as the scoring engine — for every terminal state the
initial purchase cost plus the per-round rewards summed over all rounds
equals the player's entry of `Returns()`. -/
theorem c10_rewards_sum_to_returns (N : ℕ) (s : AState) (p : ℕ) (hp : p < N)
    (hterm : isTerminal s = true) :
    -((s.boughtSeats.getD p 0 : Int) : ℚ) * kInitialPurchasePrice +
      ∑ r ∈ Finset.range s.round.toNat, rewardsRound s p r =
      (returnsModel N s).getD p 0 := by
  unfold returnsModel
  rw [if_pos hterm]
  have hlen : p < ((List.range N).map (playerPnl s)).length := by simpa using hp
  rw [List.getD_eq_getElem _ _ hlen, List.getElem_map, List.getElem_range]
  unfold playerPnl
  dsimp only
  rw [foldl_returnsLoopBody_split]
  simp only [rewardsRound, roundReward, seatsLeftAfter]
  ring

/-- Witness for C10 at the terminal state of the full match. -/
theorem c10_rewards_sum_to_returns_witness :
    0 < 2 ∧ isTerminal sTerminal = true ∧
    (-((sTerminal.boughtSeats.getD 0 0 : Int) : ℚ) * kInitialPurchasePrice +
      ∑ r ∈ Finset.range sTerminal.round.toNat, rewardsRound sTerminal 0 r =
      (returnsModel 2 sTerminal).getD 0 0) :=
  ⟨by decide, by decide, c10_rewards_sum_to_returns 2 sTerminal 0 (by decide) (by decide)⟩

/-- C1: the claim's lossless round trip fails on the code at the demand
coefficient.  At the reachable state produced by the initial-conditions
draw `1/(2^32-1)`, serialization renders `c1` with six decimal places
(`-0.240000`), so deserialization reproduces `round`, `phase`,
`current_actor`, `bought_seats`, `sold` and `prices` exactly and
restores the RNG snapshot verbatim, but yields `c1 = -6/25` instead of
the original `c1 = -6/25 - 53/4294967295000`. -/
theorem c1_roundtrip_drops_c1 :
    Reachable pw0 2 rngSmall sAfterIC 1 ∧
    deserializeState 2 (serializeState rngSnapshot 2 sAfterIC) =
      some (rngSnapshot, sAfterICParsed) ∧
    sAfterICParsed.round = sAfterIC.round ∧
    sAfterICParsed.phase = sAfterIC.phase ∧
    sAfterICParsed.currentPlayer = sAfterIC.currentPlayer ∧
    sAfterICParsed.boughtSeats = sAfterIC.boughtSeats ∧
    sAfterICParsed.sold = sAfterIC.sold ∧
    sAfterICParsed.prices = sAfterIC.prices ∧
    sAfterICParsed.c1 ≠ sAfterIC.c1 := by
  have hstep : doApplyAction pw0 2 rngSmall 0 (initialState 2) 0 =
      some (sAfterIC, 1) := by decide
  exact ⟨Reachable.step Reachable.init (by decide) hstep, by decide, rfl, rfl, rfl,
    rfl, rfl, rfl, by decide⟩

/-- Witness for C3 at the reachable mid-price-setting state (with the
constant-one `pow` instantiation), including the independence of the
appended sold values from `bought_seats`. -/
theorem c3_demand_sold_formula_witness :
    0 < 2 ∧ sMidPrice.sold.length = 2 ∧
    ((stepDemandSimulation pw0 2 rngHalf 2 sMidPrice).sold.getD 0 [] =
      sMidPrice.sold.getD 0 [] ++
        [roundHalfAway
          ((36 + (1 / pw0 (((List.range 2).map
                (fun j => pw0 ((lastD (sMidPrice.prices.getD j [])) : ℚ) (-50))).sum) (1/50)) *
              sMidPrice.c1) *
            (1 + ((rngHalf (2 + 0) - 1/2) * 20) / 100) *
            (pw0 ((lastD (sMidPrice.prices.getD 0 [])) : ℚ) (-50) /
              ((List.range 2).map
                (fun j => pw0 ((lastD (sMidPrice.prices.getD j [])) : ℚ) (-50))).sum))]) ∧
    (stepDemandSimulation pw0 2 rngHalf 2 { sMidPrice with boughtSeats := [7, 7] }).sold =
      (stepDemandSimulation pw0 2 rngHalf 2 sMidPrice).sold :=
  ⟨by decide, by decide,
    (c3_demand_sold_formula pw0 2 rngHalf 2 sMidPrice 0 (by decide) (by decide)).1,
    (c3_demand_sold_formula pw0 2 rngHalf 2 sMidPrice 0 (by decide) (by decide)).2 [7, 7]⟩

end ClaimTheorems

end AirlineSeats
